import Mathlib

/-!
Shallow embedding of `backend/config.py` of the llm-council repository,
and proofs about its configuration-resolution rules.

Python strings are modelled as `List Char`; an environment variable is an
`Option (List Char)` (`none` = unset).  Python's fallible list indexing is
modelled with `Option`-valued lookup, and Python's truthiness-based `or`
is modelled by an explicit emptiness test on the left operand.
-/

/-- Whitespace characters removed by Python `str.strip()` (ASCII range). -/
def isSpace (c : Char) : Bool :=
  c = ' ' || c = '\t' || c = '\n' || c = '\r' || c = '\x0b' || c = '\x0c'

/-- Python `str.strip()`: drop leading and trailing whitespace. -/
def strip (s : List Char) : List Char :=
  (((s.dropWhile isSpace).reverse).dropWhile isSpace).reverse

/-- Python `value.split(",")`: split on every comma, keeping empty segments
(`"".split(",") == [""]`). -/
def splitComma : List Char → List (List Char)
  | [] => [[]]
  | c :: cs =>
    if c = ',' then [] :: splitComma cs
    else
      match splitComma cs with
      | [] => [[c]]
      | seg :: rest => (c :: seg) :: rest

/-- Python `str.lower()`, character by character. -/
def toLower (s : List Char) : List Char := s.map Char.toLower

/-- `_parse_model_list` from `backend/config.py`:
`if not value: return []` then
`[model.strip() for model in value.split(",") if model.strip()]`. -/
def _parse_model_list : Option (List Char) → List (List Char)
  | none => []
  | some v =>
    if v = [] then []
    else ((splitComma v).map strip).filter (fun t => t ≠ [])

/-- The four environment variables read by `backend/config.py`. -/
structure Env where
  openrouter_api_key : Option (List Char)
  council_models : Option (List Char)
  chairman_model : Option (List Char)
  reasoning_effort : Option (List Char)

/-- The built-in default council list, in its fixed order. -/
def defaultCouncil : List (List Char) :=
  ["anthropic/claude-haiku-4.5".toList,
   "google/gemini-3-flash-preview".toList,
   "openai/gpt-5-mini".toList,
   "x-ai/grok-4.1-fast".toList]

/-- `COUNCIL_MODELS = _parse_model_list(os.getenv("COUNCIL_MODELS")) or [...]`:
Python `or` keeps the parsed list unless it is empty (falsy). -/
def COUNCIL_MODELS (env : Env) : List (List Char) :=
  let parsed := _parse_model_list env.council_models
  if parsed = [] then defaultCouncil else parsed

/-- `CHAIRMAN_MODEL = os.getenv("CHAIRMAN_MODEL") or COUNCIL_MODELS[0]`:
the raw value unless unset or empty (falsy), else the fallible index-0
lookup, modelled as an `Option`-valued access. -/
def CHAIRMAN_MODEL (env : Env) : Option (List Char) :=
  match env.chairman_model with
  | none => (COUNCIL_MODELS env)[0]?
  | some s => if s = [] then (COUNCIL_MODELS env)[0]? else some s

/-- `REASONING_EFFORT = (os.getenv("REASONING_EFFORT") or "medium").strip().lower() or None`. -/
def REASONING_EFFORT (env : Env) : Option (List Char) :=
  let base :=
    match env.reasoning_effort with
    | none => "medium".toList
    | some s => if s = [] then "medium".toList else s
  let t := toLower (strip base)
  if t = [] then none else some t

/-- `OPENROUTER_API_KEY = os.getenv("OPENROUTER_API_KEY")`: passed through. -/
def OPENROUTER_API_KEY (env : Env) : Option (List Char) :=
  env.openrouter_api_key

/-- Python `",".join(items)`. -/
def joinComma : List (List Char) → List Char
  | [] => []
  | [x] => x
  | x :: y :: ys => x ++ ',' :: joinComma (y :: ys)

/-! ### Helper lemmas about `dropWhile`, `strip` and `splitComma` -/

theorem dropWhile_dropWhile (p : Char → Bool) (l : List Char) :
    (l.dropWhile p).dropWhile p = l.dropWhile p := by
  induction l with
  | nil => rfl
  | cons c cs ih =>
    by_cases hc : p c
    · simp [List.dropWhile_cons, hc, ih]
    · simp [List.dropWhile_cons, hc]

theorem head?_dropWhile_false (p : Char → Bool) (l : List Char) (a : Char)
    (h : (l.dropWhile p).head? = some a) : p a = false := by
  induction l with
  | nil => simp at h
  | cons c cs ih =>
    rw [List.dropWhile_cons] at h
    by_cases hc : p c
    · rw [if_pos hc] at h
      exact ih h
    · rw [if_neg hc] at h
      simp only [List.head?_cons, Option.some.injEq] at h
      rw [← h]
      exact Bool.eq_false_iff.mpr hc

theorem dropWhile_of_head?_false (p : Char → Bool) (l : List Char) (a : Char)
    (h1 : l.head? = some a) (h2 : p a = false) : l.dropWhile p = l := by
  cases l with
  | nil => rfl
  | cons c cs =>
    simp only [List.head?_cons, Option.some.injEq] at h1
    rw [List.dropWhile_cons, h1, if_neg (by simp [h2])]

theorem strip_dropWhile_left (s : List Char) :
    (strip s).dropWhile isSpace = strip s := by
  rw [strip]
  cases ht : (s.dropWhile isSpace).reverse.dropWhile isSpace with
  | nil => rfl
  | cons a t0 =>
    obtain ⟨pre, hpre⟩ := List.dropWhile_suffix (l := (s.dropWhile isSpace).reverse) isSpace
    rw [ht] at hpre
    cases hu : s.dropWhile isSpace with
    | nil =>
      rw [hu] at hpre
      simp at hpre
    | cons b u0 =>
      have hb : isSpace b = false :=
        head?_dropWhile_false isSpace s b (by rw [hu]; rfl)
      have h1 : (pre ++ (a :: t0)).getLast? = (a :: t0).getLast? :=
        List.getLast?_append_of_ne_nil pre (by simp)
      rw [hpre, hu, List.getLast?_reverse] at h1
      exact dropWhile_of_head?_false isSpace ((a :: t0).reverse) b
        (by rw [List.head?_reverse]; exact h1.symm) hb

theorem strip_idem (s : List Char) : strip (strip s) = strip s := by
  have h1 : strip (strip s) = (((strip s).reverse).dropWhile isSpace).reverse := by
    rw [strip, strip_dropWhile_left]
  rw [h1, strip, List.reverse_reverse, dropWhile_dropWhile]

theorem mem_of_mem_strip {a : Char} {s : List Char} (h : a ∈ strip s) : a ∈ s := by
  rw [strip, List.mem_reverse] at h
  have h2 : a ∈ (s.dropWhile isSpace).reverse := (List.dropWhile_sublist _).subset h
  rw [List.mem_reverse] at h2
  exact (List.dropWhile_sublist _).subset h2

theorem splitComma_ne_nil (s : List Char) : splitComma s ≠ [] := by
  cases s with
  | nil => simp [splitComma]
  | cons c cs =>
    by_cases hc : c = ','
    · simp [splitComma, hc]
    · simp only [splitComma, if_neg hc]
      cases h : splitComma cs <;> simp

theorem comma_not_mem_splitComma {s m : List Char} (h : m ∈ splitComma s) :
    ',' ∉ m := by
  induction s generalizing m with
  | nil =>
    simp only [splitComma, List.mem_singleton] at h
    subst h
    simp
  | cons c cs ih =>
    by_cases hc : c = ','
    · rw [show splitComma (c :: cs) = [] :: splitComma cs by simp [splitComma, hc]] at h
      rcases List.mem_cons.mp h with h1 | h1
      · subst h1; simp
      · exact ih h1
    · obtain ⟨seg, rest, hsr⟩ := List.exists_cons_of_ne_nil (splitComma_ne_nil cs)
      rw [show splitComma (c :: cs) = (c :: seg) :: rest by
        simp [splitComma, hc, hsr]] at h
      rcases List.mem_cons.mp h with h1 | h1
      · subst h1
        intro hmem
        rcases List.mem_cons.mp hmem with h2 | h2
        · exact hc h2.symm
        · exact absurd h2 (ih (by rw [hsr]; exact List.mem_cons_self seg rest))
      · exact ih (by rw [hsr]; exact List.mem_cons_of_mem _ h1)

theorem splitComma_no_comma {x : List Char} (hx : ',' ∉ x) : splitComma x = [x] := by
  induction x with
  | nil => rfl
  | cons c cs ih =>
    have hc : ¬ (c = ',') := by
      intro h
      subst h
      exact hx (List.mem_cons_self _ _)
    have hcs : ',' ∉ cs := fun h => hx (List.mem_cons_of_mem c h)
    simp [splitComma, hc, ih hcs]

theorem splitComma_append_comma {x : List Char} (hx : ',' ∉ x) (r : List Char) :
    splitComma (x ++ ',' :: r) = x :: splitComma r := by
  induction x with
  | nil => simp [splitComma]
  | cons c cs ih =>
    have hc : ¬ (c = ',') := by
      intro h
      subst h
      exact hx (List.mem_cons_self _ _)
    have hcs : ',' ∉ cs := fun h => hx (List.mem_cons_of_mem c h)
    simp [splitComma, hc, ih hcs]

theorem splitComma_joinComma {segs : List (List Char)} (hne : segs ≠ [])
    (hc : ∀ x ∈ segs, ',' ∉ x) : splitComma (joinComma segs) = segs := by
  induction segs with
  | nil => exact absurd rfl hne
  | cons x xs ih =>
    cases xs with
    | nil =>
      show splitComma x = [x]
      exact splitComma_no_comma (hc x (List.mem_cons_self _ _))
    | cons y ys =>
      show splitComma (x ++ ',' :: joinComma (y :: ys)) = x :: y :: ys
      rw [splitComma_append_comma (hc x (List.mem_cons_self _ _))]
      rw [ih (by simp) (fun z hz => hc z (List.mem_cons_of_mem _ hz))]

theorem joinComma_ne_nil {segs : List (List Char)} (h1 : segs ≠ [])
    (h2 : ∀ x ∈ segs, x ≠ []) : joinComma segs ≠ [] := by
  cases segs with
  | nil => exact absurd rfl h1
  | cons x xs =>
    cases xs with
    | nil => exact h2 x (List.mem_cons_self _ _)
    | cons y ys => simp [joinComma]

theorem parse_some_eq (s : List Char) :
    _parse_model_list (some s) =
      ((splitComma s).map strip).filter (fun t => t ≠ []) := by
  cases s with
  | nil => decide
  | cons c cs => simp [_parse_model_list]

theorem mem_parse {s t : List Char} (h : t ∈ _parse_model_list (some s)) :
    t ≠ [] ∧ strip t = t ∧ ',' ∉ t := by
  rw [parse_some_eq] at h
  obtain ⟨hmem, hne⟩ := List.mem_filter.mp h
  obtain ⟨m, hm, hmt⟩ := List.mem_map.mp hmem
  refine ⟨by simpa using hne, ?_, ?_⟩
  · rw [← hmt]
    exact strip_idem m
  · rw [← hmt]
    intro hcm
    exact comma_not_mem_splitComma hm (mem_of_mem_strip hcm)

theorem council_resolved_length_pos (env : Env) :
    0 < (COUNCIL_MODELS env).length := by
  simp only [COUNCIL_MODELS]
  by_cases h : _parse_model_list env.council_models = []
  · rw [if_pos h]
    decide
  · rw [if_neg h]
    exact List.length_pos.mpr h

/-! ### Claim theorems -/

/-- Claim C1: whenever COUNCIL_MODELS is unset, the empty string, or any string
that parses to an empty sequence (such as a string of commas and whitespace),
the resolved council list is the fixed built-in default sequence of 4
identifiers, in its fixed order. -/
theorem council_models_default (env : Env)
    (h : env.council_models = none ∨ env.council_models = some [] ∨
      _parse_model_list env.council_models = []) :
    COUNCIL_MODELS env = defaultCouncil ∧ defaultCouncil.length = 4 := by
  have hp : _parse_model_list env.council_models = [] := by
    rcases h with h | h | h
    · rw [h]; rfl
    · rw [h]; rfl
    · exact h
  refine ⟨?_, rfl⟩
  simp only [COUNCIL_MODELS, hp, if_pos]

/-- Witness for C1 at the concrete environment where COUNCIL_MODELS is the
string consisting only of commas and spaces. -/
theorem council_models_default_witness :
    COUNCIL_MODELS ⟨none, some ", , ,".toList, none, none⟩ = defaultCouncil ∧
      defaultCouncil.length = 4 :=
  council_models_default ⟨none, some ", , ,".toList, none, none⟩
    (Or.inr (Or.inr (by decide)))

/-- Claim C2: if CHAIRMAN_MODEL is unset or the empty string, the resolved
chairman is element 0 of the already-resolved council list; if it is set to any
non-empty value, the resolved chairman is that value verbatim, with no
membership check against the council list. -/
theorem chairman_resolution (env : Env) :
    ((env.chairman_model = none ∨ env.chairman_model = some []) →
      CHAIRMAN_MODEL env = (COUNCIL_MODELS env)[0]?) ∧
    (∀ s, env.chairman_model = some s → s ≠ [] →
      CHAIRMAN_MODEL env = some s) := by
  constructor
  · intro h
    rcases h with h | h
    · simp [CHAIRMAN_MODEL, h]
    · simp [CHAIRMAN_MODEL, h]
  · intro s hs hne
    simp [CHAIRMAN_MODEL, hs, hne]

/-- Witness for C2: a chairman value that is not a member of the resolved
council list is kept verbatim, and resolution succeeds. -/
theorem chairman_resolution_witness :
    CHAIRMAN_MODEL ⟨none, none, some "not-a-member".toList, none⟩ =
        some "not-a-member".toList ∧
      "not-a-member".toList ∉
        COUNCIL_MODELS ⟨none, none, some "not-a-member".toList, none⟩ :=
  ⟨(chairman_resolution ⟨none, none, some "not-a-member".toList, none⟩).2
      "not-a-member".toList rfl (by decide),
    by decide⟩

/-- Claim C3: the comma-list parser maps an optional raw string to the ordered
sequence of comma-delimited segments, each trimmed, with segments that are
empty after trimming dropped; None and the empty string yield the empty
sequence; order is preserved and duplicates are kept. -/
theorem parse_model_list_contract :
    _parse_model_list none = [] ∧
    _parse_model_list (some "".toList) = [] ∧
    (∀ s, _parse_model_list (some s) =
      ((splitComma s).map strip).filter (fun t => t ≠ [])) ∧
    (∀ s t, t ∈ _parse_model_list (some s) → t ≠ [] ∧ strip t = t) ∧
    (∀ s, List.Sublist (_parse_model_list (some s)) ((splitComma s).map strip)) ∧
    _parse_model_list (some "a,,b".toList) = ["a".toList, "b".toList] ∧
    _parse_model_list (some "a, ,b".toList) = ["a".toList, "b".toList] ∧
    _parse_model_list (some "a, b ,a".toList) =
      ["a".toList, "b".toList, "a".toList] := by
  refine ⟨rfl, rfl, parse_some_eq, ?_, ?_, by decide, by decide, by decide⟩
  · intro s t h
    exact ⟨(mem_parse h).1, (mem_parse h).2.1⟩
  · intro s
    rw [parse_some_eq]
    exact List.filter_sublist _

/-- Witness for C3: the parsed element of a concrete input is non-empty and
already trimmed. -/
theorem parse_model_list_contract_witness :
    "a".toList ∈ _parse_model_list (some "a,,b".toList) ∧
      ("a".toList ≠ [] ∧ strip "a".toList = "a".toList) :=
  ⟨by decide,
    parse_model_list_contract.2.2.2.1 "a,,b".toList "a".toList (by decide)⟩

/-- Counterexample to C4 as stated: with REASONING_EFFORT set to the empty
string, the resolved value is "medium", not the trimmed-and-lowercased input
(which would be the empty string). -/
theorem reasoning_effort_empty_not_lowercased :
    ¬ (REASONING_EFFORT ⟨none, none, none, some []⟩ =
        some (toLower (strip []))) := by decide

/-- Claim C4 (amended): if REASONING_EFFORT is unset the resolved effort is
"medium"; if it is set to a value whose trimmed form is non-empty, the
resolved value is the input trimmed and lowercased. (Set-but-blank values are
excluded: the empty string resolves to "medium" and whitespace-only values
resolve to the absent value.) -/
theorem reasoning_effort_resolution (env : Env) :
    (env.reasoning_effort = none → REASONING_EFFORT env = some "medium".toList) ∧
    (∀ s, env.reasoning_effort = some s → strip s ≠ [] →
      REASONING_EFFORT env = some (toLower (strip s))) := by
  constructor
  · intro h
    simp only [REASONING_EFFORT, h]
    decide
  · intro s hs hne
    have hsne : ¬ (s = []) := by
      intro h
      subst h
      exact hne rfl
    simp only [REASONING_EFFORT, hs]
    rw [if_neg hsne]
    have ht : ¬ (toLower (strip s) = []) := by
      intro h
      rw [toLower] at h
      exact hne (List.map_eq_nil_iff.mp h)
    rw [if_neg ht]

/-- Witness for C4 at REASONING_EFFORT = "  HIGH  ", which resolves to
"high". -/
theorem reasoning_effort_resolution_witness :
    REASONING_EFFORT ⟨none, none, none, some "  HIGH  ".toList⟩ =
        some (toLower (strip "  HIGH  ".toList)) ∧
      toLower (strip "  HIGH  ".toList) = "high".toList :=
  ⟨(reasoning_effort_resolution ⟨none, none, none, some "  HIGH  ".toList⟩).2
      "  HIGH  ".toList rfl (by decide),
    by decide⟩

/-- Counterexample to C5 as stated: the empty string resolves to "medium",
not the absent value, and the whitespace-only string resolves to the absent
value, which differs from the unset state (which resolves to "medium"). -/
theorem reasoning_effort_blank_not_unset :
    ¬ (REASONING_EFFORT ⟨none, none, none, some []⟩ = none ∧
        REASONING_EFFORT ⟨none, none, none, some "   ".toList⟩ =
          REASONING_EFFORT ⟨none, none, none, none⟩) := by decide

/-- Claim C5 (amended): a set-but-whitespace-only REASONING_EFFORT (non-empty,
trimming to empty) resolves to the absent value; a set-but-empty value and an
unset one both resolve to "medium", so the blank states do not all coincide
with the unset state. -/
theorem reasoning_effort_blank (env : Env) :
    (∀ s, env.reasoning_effort = some s → s ≠ [] → strip s = [] →
      REASONING_EFFORT env = none) ∧
    (env.reasoning_effort = some [] →
      REASONING_EFFORT env = some "medium".toList) ∧
    (env.reasoning_effort = none →
      REASONING_EFFORT env = some "medium".toList) := by
  refine ⟨?_, ?_, ?_⟩
  · intro s hs hne hstrip
    simp only [REASONING_EFFORT, hs]
    rw [if_neg hne, hstrip]
    rfl
  · intro h
    simp only [REASONING_EFFORT, h]
    decide
  · intro h
    simp only [REASONING_EFFORT, h]
    decide

/-- Witness for C5 at REASONING_EFFORT = "   " (whitespace only), resolving to
the absent value. -/
theorem reasoning_effort_blank_witness :
    REASONING_EFFORT ⟨none, none, none, some "   ".toList⟩ = none :=
  (reasoning_effort_blank ⟨none, none, none, some "   ".toList⟩).1
    "   ".toList rfl (by decide) (by decide)

/-- Claim C6: for every environment the resolved council list is non-empty:
either the parsed list is non-empty or the 4-element default replaces it. -/
theorem council_models_nonempty (env : Env) :
    0 < (COUNCIL_MODELS env).length :=
  council_resolved_length_pos env

/-- Claim C7: configuration resolution never fails: the index-0 access into
the resolved council list always succeeds, and the resolved chairman is always
present, for every combination of environment values. -/
theorem config_resolution_total (env : Env) :
    ((COUNCIL_MODELS env)[0]?).isSome = true ∧
      (CHAIRMAN_MODEL env).isSome = true := by
  have hne : COUNCIL_MODELS env ≠ [] :=
    List.length_pos.mp (council_resolved_length_pos env)
  obtain ⟨a, t, hat⟩ := List.exists_cons_of_ne_nil hne
  have h0 : (COUNCIL_MODELS env)[0]? = some a := by rw [hat]; simp
  refine ⟨by rw [h0]; rfl, ?_⟩
  cases hc : env.chairman_model with
  | none =>
    have h : CHAIRMAN_MODEL env = (COUNCIL_MODELS env)[0]? := by
      simp [CHAIRMAN_MODEL, hc]
    rw [h, h0]
    rfl
  | some s =>
    by_cases hs : s = []
    · have h : CHAIRMAN_MODEL env = (COUNCIL_MODELS env)[0]? := by
        simp [CHAIRMAN_MODEL, hc, hs]
      rw [h, h0]
      rfl
    · have h : CHAIRMAN_MODEL env = some s := by
        simp [CHAIRMAN_MODEL, hc, hs]
      rw [h]
      rfl

/-- Claim C8: joining the parsed segments with a comma and reparsing yields
the same sequence as parsing directly, for every input string. -/
theorem parse_join_round_trip (s : List Char) :
    _parse_model_list (some (joinComma (_parse_model_list (some s)))) =
      _parse_model_list (some s) := by
  by_cases hP : _parse_model_list (some s) = []
  · rw [hP]
    decide
  · have helem : ∀ x ∈ _parse_model_list (some s), x ≠ [] ∧ strip x = x ∧ ',' ∉ x :=
      fun x hx => mem_parse hx
    have hsplit : splitComma (joinComma (_parse_model_list (some s))) =
        _parse_model_list (some s) :=
      splitComma_joinComma hP (fun x hx => (helem x hx).2.2)
    rw [parse_some_eq (joinComma (_parse_model_list (some s))), hsplit]
    have hmap : (_parse_model_list (some s)).map strip =
        _parse_model_list (some s) := by
      conv_rhs => rw [← List.map_id (_parse_model_list (some s))]
      exact List.map_congr_left (fun x hx => (helem x hx).2.1)
    rw [hmap]
    exact List.filter_eq_self.mpr (fun x hx => by simpa using (helem x hx).1)

/-- Claim C9: the parser is a total function from optional strings to lists;
any input, malformed or not, degrades to a sublist of the trimmed segments,
so the result has at most as many entries as there are segments. -/
theorem parse_model_list_degrades (v : Option (List Char)) :
    List.Sublist (_parse_model_list v) ((splitComma (v.getD [])).map strip) ∧
      (_parse_model_list v).length ≤ (splitComma (v.getD [])).length := by
  have hsub : List.Sublist (_parse_model_list v)
      ((splitComma (v.getD [])).map strip) := by
    cases v with
    | none => simp [_parse_model_list]
    | some s =>
      rw [Option.getD_some, parse_some_eq]
      exact List.filter_sublist _
  refine ⟨hsub, ?_⟩
  have h := hsub.length_le
  simpa using h

/-- Claim C10: the chairman value is never trimmed or normalized: every
non-empty CHAIRMAN_MODEL value, including whitespace-only values and values
with surrounding whitespace, is kept verbatim, and only the truly empty
string (or an unset variable) takes the default-to-council path. -/
theorem chairman_model_verbatim (env : Env) :
    (∀ s, env.chairman_model = some s → s ≠ [] →
      CHAIRMAN_MODEL env = some s) ∧
    (env.chairman_model = some [] →
      CHAIRMAN_MODEL env = (COUNCIL_MODELS env)[0]?) := by
  constructor
  · intro s hs hne
    simp [CHAIRMAN_MODEL, hs, hne]
  · intro h
    simp [CHAIRMAN_MODEL, h]

/-- Witness for C10: a whitespace-only chairman and one with surrounding
whitespace are both kept verbatim, and the latter is not equal to its trimmed
form. -/
theorem chairman_model_verbatim_witness :
    CHAIRMAN_MODEL ⟨none, none, some "   ".toList, none⟩ =
        some "   ".toList ∧
      CHAIRMAN_MODEL ⟨none, none, some "  m  ".toList, none⟩ =
        some "  m  ".toList ∧
      strip "  m  ".toList ≠ "  m  ".toList :=
  ⟨(chairman_model_verbatim ⟨none, none, some "   ".toList, none⟩).1
      "   ".toList rfl (by decide),
    (chairman_model_verbatim ⟨none, none, some "  m  ".toList, none⟩).1
      "  m  ".toList rfl (by decide),
    by decide⟩
